import Mathlib

/-!
Shallow embedding of the ruserf gossip-coordination layer: the Lamport clock
(src/types/src/clock.rs), the gossip message tags (src/core/src/types/message.rs)
and the memberlist delegate surface (src/core/src/serf/delegate.rs), together
with theorems checking the natural-language specification against them.

Machine integers are modelled as `Nat`, with an explicit modulus where the
source performs u64 arithmetic that can overflow.
-/

namespace Ruserf

/-- Modulus of 64-bit unsigned (`u64`) arithmetic. -/
def u64Mod : Nat := 2 ^ 64

/-- Sequential semantics of `LamportClock::witness` (src/types/src/clock.rs,
lines 164-186).  The CAS loop, run to completion without interference, reads
the current value; if `current >= time` it returns without change, otherwise
it stores `time + 1` (a u64 addition, which wraps on overflow in release
builds). -/
def witness (current time : Nat) : Nat :=
  if time ≤ current then current else (time + 1) % u64Mod

/-- Semantics of `LamportClock::increment` (clock.rs line 157): fetch-add one
and return the new value. -/
def increment (current : Nat) : Nat :=
  (current + 1) % u64Mod

/-- A decoded user event carried inside a push-pull event bucket. -/
structure UserEvent where
  name : List Nat
  payload : List Nat
  deriving Repr, DecidableEq

/-- One slot of the push-pull events buffer (`events: [EventBucket]`). -/
structure EventBucket where
  ltime : Nat
  events : List UserEvent
  deriving Repr, DecidableEq

/-- The decoded PushPull message body
(`PushPull { ltime, status_ltimes, left_members, event_ltime, events, query_ltime }`).
Node identifiers are modelled as `Nat`; `status_ltimes` is the insertion-ordered
association list underlying the IndexMap, `left_members` the IndexSet. -/
structure PushPull where
  ltime : Nat
  status_ltimes : List (Nat × Nat)
  left_members : List Nat
  event_ltime : Nat
  events : List (Option EventBucket)
  query_ltime : Nat
  deriving Repr, DecidableEq

/-- Clock-witnessing phase of `SerfDelegate::merge_remote_state`
(src/core/src/serf/delegate.rs, lines 384-400): each of the membership, event
and query clocks is witnessed with the corresponding remote value minus one,
and only when that remote value is strictly positive.  Returns the three
updated clock values. -/
def mergeClocks (clock eventClock queryClock : Nat) (pp : PushPull) :
    Nat × Nat × Nat :=
  ( if 0 < pp.ltime then witness clock (pp.ltime - 1) else clock
  , if 0 < pp.event_ltime then witness eventClock (pp.event_ltime - 1) else eventClock
  , if 0 < pp.query_ltime then witness queryClock (pp.query_ltime - 1) else queryClock )

/-- u64 subtraction with an explicit underflow check: `none` exactly when the
unguarded subtraction of `impl Sub for LamportTime` (clock.rs lines 80-87)
would underflow. -/
def checkedSub (a b : Nat) : Option Nat :=
  if b ≤ a then some (a - b) else none

/-- The clock-witnessing phase of `merge_remote_state` again, but with every
`LamportTime` subtraction routed through `checkedSub`, so that a possible
underflow surfaces as `none`. -/
def mergeClocksChecked (clock eventClock queryClock : Nat) (pp : PushPull) :
    Option (Nat × Nat × Nat) := do
  let c ← if 0 < pp.ltime then (checkedSub pp.ltime 1).map (witness clock) else some clock
  let e ← if 0 < pp.event_ltime then (checkedSub pp.event_ltime 1).map (witness eventClock)
          else some eventClock
  let q ← if 0 < pp.query_ltime then (checkedSub pp.query_ltime 1).map (witness queryClock)
          else some queryClock
  some (c, e, q)

/-- Body of a wire Leave intent (`LeaveMessage { ltime, node, prune }`). -/
structure LeaveMessage where
  ltime : Nat
  node : Nat
  prune : Bool
  deriving Repr, DecidableEq

/-- Body of a wire Join intent (`JoinMessage { ltime, node }`). -/
structure JoinMessage where
  ltime : Nat
  node : Nat
  deriving Repr, DecidableEq

/-- An intent handed to the intent handlers during a push-pull merge. -/
inductive Intent where
  | leave (msg : LeaveMessage)
  | join (msg : JoinMessage)
  deriving Repr, DecidableEq

/-- Key lookup in an insertion-ordered association list (`IndexMap::get`). -/
def lookupLtime (m : List (Nat × Nat)) (node : Nat) : Option Nat :=
  (m.find? (fun p => p.1 == node)).map (fun p => p.2)

/-- Intent-replay phase of `merge_remote_state` (delegate.rs, lines 402-435):
first every node of `left_members` becomes a synthetic Leave carrying that
node's entry of `status_ltimes` and `prune = false` (a left node with no
status entry is only logged, no intent is synthesized for it); afterwards the
remaining `status_ltimes` entries are replayed as synthetic Joins, skipping
the nodes contained in `left_members`.  The returned list is the sequence of
intents handed to the handlers, in order. -/
def mergeIntents (pp : PushPull) : List Intent :=
  (pp.left_members.filterMap (fun node =>
      (lookupLtime pp.status_ltimes node).map
        (fun lt => Intent.leave ⟨lt, node, false⟩)))
    ++
  (pp.status_ltimes.filterMap (fun p =>
      if pp.left_members.contains p.1 then none
      else some (Intent.join ⟨p.2, p.1⟩)))

/-- A row of the membership tables: the node id together with its
`status_time` (`member.status_time` in the source). -/
structure MemberState where
  node : Nat
  status_time : Nat
  deriving Repr, DecidableEq

/-- The two membership tables read by `local_state`: `states` (live and
failed members) and `left_members`. -/
structure Members where
  states : List MemberState
  left_members : List MemberState
  deriving Repr, DecidableEq

/-- PushPull body built by `SerfDelegate::local_state` (delegate.rs, lines
315-359): `status_ltimes` is drawn from the `states` table only, and
`left_members` lists the node ids of the left table. -/
def localStatePushPull (clock eventClock queryClock : Nat) (m : Members)
    (events : List (Option EventBucket)) : PushPull :=
  ⟨clock,
   m.states.map (fun v => (v.node, v.status_time)),
   m.left_members.map (fun v => v.node),
   eventClock, events, queryClock⟩

/-- The three retransmit queues, abstracted by their `get_broadcasts`
behaviour: each takes the per-message overhead and a byte limit and yields the
chosen broadcasts (the queue implementation lives in the external memberlist
crate). -/
structure BroadcastQueues (Msg : Type) where
  membership : Nat → Nat → List Msg
  query : Nat → Nat → List Msg
  event : Nat → Nat → List Msg

/-- Running byte count over chosen broadcasts, exactly as the `for` loops of
`broadcast_messages` accumulate `bytes_used`. -/
def accumBytes {Msg : Type} (encodedLen : Msg → Nat) (start : Nat)
    (msgs : List Msg) : Nat :=
  msgs.foldl (fun acc m => acc + encodedLen m) start

/-- Total encoded size of a list of broadcasts. -/
def sumBytes {Msg : Type} (encodedLen : Msg → Nat) (msgs : List Msg) : Nat :=
  (msgs.map encodedLen).sum

/-- Semantics of `SerfDelegate::broadcast_messages` (delegate.rs, lines 245-313):
membership broadcasts are fetched first against the whole limit, then query
broadcasts against the remaining budget, then event broadcasts against the
budget left after membership and query.  The third accumulation loop of the
source iterates `query_msgs` a second time instead of `event_msgs`; the value
it produces is never read afterwards, so it is bound here and discarded. -/
def broadcastMessages {Msg : Type} (q : BroadcastQueues Msg)
    (encodedLen : Msg → Nat) (overhead limit : Nat) : List Msg :=
  let msgs := q.membership overhead limit
  let bytesUsed1 := accumBytes encodedLen 0 msgs
  let queryMsgs := q.query overhead (limit - bytesUsed1)
  let bytesUsed2 := accumBytes encodedLen bytesUsed1 queryMsgs
  let eventMsgs := q.event overhead (limit - bytesUsed2)
  let _bytesUsed3 := accumBytes encodedLen bytesUsed2 queryMsgs
  msgs ++ queryMsgs ++ eventMsgs

/-- Internal version byte of the ping message (delegate.rs, line 36). -/
def PING_VERSION : Nat := 1

/-- Writing an encoding into a fixed-size destination slice, as the
`Transformable`-style encoders do: fails when the destination is shorter than
the encoding, otherwise overwrites its prefix.  The coordinate encoding
itself is abstract and passed in as `coordBytes`. -/
def encodeIntoSlice (coordBytes : List Nat) (dst : List Nat) :
    Option (List Nat) :=
  if coordBytes.length ≤ dst.length
  then some (coordBytes ++ dst.drop coordBytes.length)
  else none

/-- Semantics of `SerfDelegate::ack_payload` (delegate.rs, lines 583-597).  When the
coordinate subsystem is present, the source creates an empty Vec, pushes
`PING_VERSION` (the buffer now has length one), and then encodes the current
coordinate into `buf[1..]`, which is the empty suffix of that buffer; an
encoding error is only logged and the buffer is returned as is.  When
coordinates are disabled, the empty buffer is returned. -/
def ackPayload (coordEnabled : Bool) (coordBytes : List Nat) : List Nat :=
  if coordEnabled then
    let buf : List Nat := [PING_VERSION]
    match encodeIntoSlice coordBytes (buf.drop 1) with
    | some tail => buf.take 1 ++ tail
    | none => buf
  else []

/-- The gossip message tags of `MessageType`
(src/core/src/types/message.rs, lines 13-76, encryption feature enabled). -/
inductive MessageType where
  | leave
  | join
  | pushPull
  | userEvent
  | query
  | queryResponse
  | conflictResponse
  | relay
  | keyRequest
  | keyResponse
  deriving Repr, DecidableEq

/-- Tag byte of a message type (`impl From<MessageType> for u8`, via the
discriminants at message.rs lines 13-24). -/
def messageTypeToByte : MessageType → Nat
  | .leave => 0
  | .join => 1
  | .pushPull => 2
  | .userEvent => 3
  | .query => 4
  | .queryResponse => 5
  | .conflictResponse => 6
  | .relay => 7
  | .keyRequest => 253
  | .keyResponse => 254

/-- Semantics of `impl TryFrom<u8> for MessageType` (message.rs, lines 30-50): the ten
known tag bytes map to their message type, every other byte value is rejected
(`Err(UnknownMessageType)`, modelled as `none`). -/
def byteToMessageType (b : Nat) : Option MessageType :=
  if b = 0 then some .leave
  else if b = 1 then some .join
  else if b = 2 then some .pushPull
  else if b = 3 then some .userEvent
  else if b = 4 then some .query
  else if b = 5 then some .queryResponse
  else if b = 6 then some .conflictResponse
  else if b = 7 then some .relay
  else if b = 253 then some .keyRequest
  else if b = 254 then some .keyResponse
  else none

/-- Modelled from the spec: the little-endian base-128 varint encoder used by
`impl Transformable for LamportTime` (clock.rs, lines 109-128) lives in the
external `transformable` crate; the spec calls it the "varint Transformable
encoding".  Each byte carries seven value bits; a set high bit marks a
continuation. -/
def encode_varint (n : Nat) : List Nat :=
  if h : n < 128 then [n]
  else (n % 128 + 128) :: encode_varint (n / 128)
decreasing_by
  simp_wf
  exact Nat.div_lt_self (by omega) (by omega)

/-- Modelled from the spec: the matching varint decoder of the external
`transformable` crate, returning the number of bytes consumed together with
the decoded value, or `none` on truncated input. -/
def decode_varint : List Nat → Option (Nat × Nat)
  | [] => none
  | b :: rest =>
    if b < 128 then some (1, b)
    else
      match decode_varint rest with
      | some (consumed, v) => some (consumed + 1, v * 128 + (b - 128))
      | none => none

/-- Destination header of a Relay envelope: the node id and its resolved
transport address (`RelayHeader { dest: Node<I, A> }`, modelled with `Nat`
ids and addresses). -/
structure Node where
  id : Nat
  addr : Nat
  deriving Repr, DecidableEq

/-- The variants a decoded `SerfMessage` can take, with the payload types of
the five variants dispatched by `notify_message` left abstract. -/
inductive SerfMessageVal (L J U Q R : Type) where
  | leave (l : L)
  | join (j : J)
  | pushPull
  | userEvent (u : U)
  | query (q : Q)
  | queryResponse (r : R)
  | conflictResponse
  | keyRequest
  | keyResponse

/-- External collaborators of `notify_message`: the transform delegate's
decoders (which also report the bytes they consumed) and the Serf handlers.
Handlers consume the abstract node state `St` and, for the four rebroadcast
deciders, return the updated state together with the rebroadcast flag. -/
structure DispatchEnv (St L J U Q R : Type) where
  decodeMsg : List Nat → Option (Nat × SerfMessageVal L J U Q R)
  decodeNode : List Nat → Option (Nat × Node)
  handleNodeLeaveIntent : St → L → St × Bool
  handleNodeJoinIntent : St → J → St × Bool
  handleUserEvent : St → U → St × Bool
  handleQuery : St → Q → St × Bool
  handleQueryResponse : St → R → St

/-- The rebroadcast queue a message is pushed onto. -/
inductive QueueId where
  | membership
  | event
  | query
  deriving Repr, DecidableEq

/-- Observable outcome of one `notify_message` call: the node state after the
call, the message queued for rebroadcast (if any) with its queue, and the
bytes handed to the transport's `send` (if any) with the destination
address. -/
structure DispatchResult (St : Type) where
  state : St
  rebroadcast : Option (QueueId × List Nat)
  sent : Option (Nat × List Nat)
  deriving Repr

/-- Semantics of `SerfDelegate::notify_message` (delegate.rs, lines 118-243).  An empty
message, an unknown tag byte, a failed decode, a decode yielding an
unexpected variant, and the tags with no handler arm (PushPull,
ConflictResponse, KeyRequest, KeyResponse) are all logged and dropped.  The
four intent and event tags run their handler and, when it asks for it,
rebroadcast the original message on their queue.  Relay strips the tag byte
plus the consumed destination header and sends the rest to the destination's
address. -/
def notifyMessage {St L J U Q R : Type} (env : DispatchEnv St L J U Q R)
    (st : St) (msg : List Nat) : DispatchResult St :=
  match msg with
  | [] => ⟨st, none, none⟩
  | b :: rest =>
    match byteToMessageType b with
    | none => ⟨st, none, none⟩
    | some ty =>
      match ty with
      | .leave =>
        match env.decodeMsg rest with
        | some (_, .leave l) =>
          let r := env.handleNodeLeaveIntent st l
          ⟨r.1, if r.2 then some (.membership, b :: rest) else none, none⟩
        | some (_, _) => ⟨st, none, none⟩
        | none => ⟨st, none, none⟩
      | .join =>
        match env.decodeMsg rest with
        | some (_, .join j) =>
          let r := env.handleNodeJoinIntent st j
          ⟨r.1, if r.2 then some (.membership, b :: rest) else none, none⟩
        | some (_, _) => ⟨st, none, none⟩
        | none => ⟨st, none, none⟩
      | .userEvent =>
        match env.decodeMsg rest with
        | some (_, .userEvent u) =>
          let r := env.handleUserEvent st u
          ⟨r.1, if r.2 then some (.event, b :: rest) else none, none⟩
        | some (_, _) => ⟨st, none, none⟩
        | none => ⟨st, none, none⟩
      | .query =>
        match env.decodeMsg rest with
        | some (_, .query qm) =>
          let r := env.handleQuery st qm
          ⟨r.1, if r.2 then some (.query, b :: rest) else none, none⟩
        | some (_, _) => ⟨st, none, none⟩
        | none => ⟨st, none, none⟩
      | .queryResponse =>
        match env.decodeMsg rest with
        | some (_, .queryResponse qr) =>
          ⟨env.handleQueryResponse st qr, none, none⟩
        | some (_, _) => ⟨st, none, none⟩
        | none => ⟨st, none, none⟩
      | .relay =>
        match env.decodeNode rest with
        | some (consumed, n) =>
          ⟨st, none, some (n.addr, (b :: rest).drop (consumed + 1))⟩
        | none => ⟨st, none, none⟩
      | _ => ⟨st, none, none⟩

/-- Claim C1: the spec states that `witness(t)` sets the clock to
`max(c, t) + 1` whenever `t ≥ c`, in particular that witnessing a value equal
to the current clock value advances the clock by one.  Evaluating the source
at a clock holding 5: `witness(5)` leaves the clock at 5 (the guard
`current >= time` treats an equal value as old and returns), it does not
advance it to 6. -/
theorem witness_equal_time_noop : witness 5 5 = 5 ∧ witness 5 5 ≠ 6 := by
  decide

/-- Claim C2: the spec states that after `merge_remote_state` each local
clock equals exactly the remote value whenever the local clock was behind it.
Evaluating the source: a membership clock at 3 merging a PushPull with
`ltime = 10` does reach 10, but a membership clock at 9 (behind 10) stays at
9, because `witness(10 - 1)` finds `current >= time` and returns. -/
theorem mergeClocks_one_behind_not_reached :
    (mergeClocks 3 0 0 ⟨10, [], [], 0, [], 0⟩).1 = 10 ∧
    (mergeClocks 9 0 0 ⟨10, [], [], 0, [], 0⟩).1 = 9 := by
  decide

/-- Counterexample to claim C9 as universally stated: witnessing
`u64::MAX = 2^64 - 1` on a clock holding 1 stores `(2^64 - 1 + 1) % 2^64 = 0`,
decreasing the clock. -/
theorem witness_wraps_at_u64_max : witness 1 (2 ^ 64 - 1) < 1 := by
  norm_num [witness, u64Mod]

/-- Claim C9 (amended): for every clock value and every witnessed time whose
successor does not overflow u64 — that is, every time except `u64::MAX` —
`witness` never decreases the clock value. -/
theorem witness_monotone (current time : Nat) (h : time + 1 < u64Mod) :
    current ≤ witness current time := by
  unfold witness
  split
  · exact Nat.le_refl current
  · rw [Nat.mod_eq_of_lt h]
    omega

/-- Concrete instance of `witness_monotone`. -/
theorem witness_monotone_inst : 1 ≤ witness 1 5 :=
  witness_monotone 1 5 (by norm_num [u64Mod])

/-- Claim C10: in `merge_remote_state` every subtraction of one from a remote
Lamport time is guarded by a strict positivity check, so the unguarded u64
subtraction of `impl Sub for LamportTime` can never underflow: the checked
variant of the clock phase never fails and agrees with the direct one. -/
theorem mergeClocks_no_underflow (clock eventClock queryClock : Nat)
    (pp : PushPull) :
    mergeClocksChecked clock eventClock queryClock pp =
      some (mergeClocks clock eventClock queryClock pp) := by
  rcases pp with ⟨lt, sl, lm, elt, ev, qlt⟩
  rcases lt with _ | lt <;> rcases elt with _ | elt <;> rcases qlt with _ | qlt <;>
    simp [mergeClocksChecked, mergeClocks, checkedSub]

/-- Concrete instance of `mergeClocks_no_underflow`. -/
theorem mergeClocks_no_underflow_inst :
    (mergeClocksChecked 3 4 5 ⟨10, [], [], 2, [], 0⟩).isSome = true := by
  rw [mergeClocks_no_underflow]
  rfl

/-- Claim C5: the spec states that with coordinates enabled `ack_payload`
returns `PING_VERSION` followed by the encoding of the current coordinate.
Evaluating the source with a coordinate that encodes to the single byte 7:
the coordinate is encoded into the empty slice `buf[1..]`, which fails, so
only the version byte is returned and the coordinate bytes are missing.  The
disabled case does return the empty buffer. -/
theorem ackPayload_version_only :
    ackPayload true [7] = [PING_VERSION] ∧
    ackPayload true [7] ≠ [PING_VERSION, 7] ∧
    ackPayload false [7] = [] := by
  decide

/-- Folding the running byte count equals the start plus the total size. -/
theorem accumBytes_eq_add {Msg : Type} (encodedLen : Msg → Nat) (start : Nat)
    (msgs : List Msg) :
    accumBytes encodedLen start msgs = start + sumBytes encodedLen msgs := by
  induction msgs generalizing start with
  | nil => simp [accumBytes, sumBytes]
  | cons x xs ih =>
    simp only [accumBytes, List.foldl_cons, sumBytes, List.map_cons,
      List.sum_cons] at ih ⊢
    rw [ih]
    omega

/-- Claim C4: `broadcast_messages` returns the membership broadcasts first,
then the query broadcasts, then the event broadcasts; the query queue is
offered `limit` minus the bytes of the chosen membership messages, and the
event queue `limit` minus the bytes of the chosen membership and query
messages. -/
theorem broadcastMessages_priority_and_budgets {Msg : Type}
    (q : BroadcastQueues Msg) (enc : Msg → Nat) (overhead limit : Nat) :
    broadcastMessages q enc overhead limit =
      q.membership overhead limit
        ++ q.query overhead (limit - sumBytes enc (q.membership overhead limit))
        ++ q.event overhead
            (limit -
              (sumBytes enc (q.membership overhead limit) +
                sumBytes enc (q.query overhead
                  (limit - sumBytes enc (q.membership overhead limit))))) := by
  simp [broadcastMessages, accumBytes_eq_add]

/-- Concrete instance of `broadcastMessages_priority_and_budgets`: three
queues offering one message each of sizes 3, 2 and 1 under a limit of 10. -/
def q0bm : BroadcastQueues Nat :=
  ⟨fun _ l => if 3 ≤ l then [3] else [],
   fun _ l => if 2 ≤ l then [2] else [],
   fun _ l => if 1 ≤ l then [1] else []⟩

/-- Concrete instance of `broadcastMessages_priority_and_budgets`. -/
theorem broadcastMessages_priority_inst :
    broadcastMessages q0bm (fun m => m) 0 10 = [3, 2, 1] := by
  rw [broadcastMessages_priority_and_budgets]
  rfl

/-- Claim C3: `merge_remote_state` processes the left members before any
synthetic Join: the replayed intent sequence splits into a prefix of Leave
intents (one per left member with a status entry, carrying that entry's ltime
and `prune = false`) followed by Join intents for exactly the non-left status
entries.  Every left member with a status entry gets its Leave, a node with
no status entry never gets one, and no left member is replayed as a Join.
Moreover the PushPull built by `local_state` draws `status_ltimes` from the
`states` table only. -/
theorem mergeIntents_left_members_first (pp : PushPull) :
    (∃ ls js, mergeIntents pp = ls ++ js ∧
      (∀ i ∈ ls, ∃ n t, i = Intent.leave ⟨t, n, false⟩ ∧ n ∈ pp.left_members ∧
          lookupLtime pp.status_ltimes n = some t) ∧
      (∀ i ∈ js, ∃ n t, i = Intent.join ⟨t, n⟩ ∧ (n, t) ∈ pp.status_ltimes ∧
          ¬ n ∈ pp.left_members)) ∧
    (∀ n t, n ∈ pp.left_members → lookupLtime pp.status_ltimes n = some t →
        Intent.leave ⟨t, n, false⟩ ∈ mergeIntents pp) ∧
    (∀ n t p, lookupLtime pp.status_ltimes n = none →
        ¬ Intent.leave ⟨t, n, p⟩ ∈ mergeIntents pp) ∧
    (∀ n t, n ∈ pp.left_members → ¬ Intent.join ⟨t, n⟩ ∈ mergeIntents pp) ∧
    (∀ c e q m ev, (localStatePushPull c e q m ev).status_ltimes =
        m.states.map (fun v => (v.node, v.status_time))) := by
  refine ⟨⟨_, _, rfl, ?_, ?_⟩, ?_, ?_, ?_, ?_⟩
  · intro i hi
    simp only [List.mem_filterMap, Option.map_eq_some'] at hi
    obtain ⟨node, hnode, lt, hlk, hi⟩ := hi
    exact ⟨node, lt, hi.symm, hnode, hlk⟩
  · intro i hi
    simp only [List.mem_filterMap] at hi
    obtain ⟨p, hp, hcond⟩ := hi
    simp at hcond
    exact ⟨p.1, p.2, hcond.2.symm, hp, hcond.1⟩
  · intro n t hn hl
    simp only [mergeIntents, List.mem_append]
    left
    simp only [List.mem_filterMap]
    exact ⟨n, hn, by rw [hl]; rfl⟩
  · intro n t p hl hmem
    simp only [mergeIntents, List.mem_append, List.mem_filterMap] at hmem
    rcases hmem with ⟨node, hnode, hmap⟩ | ⟨q, hq, hcond⟩
    · rw [Option.map_eq_some'] at hmap
      obtain ⟨a, ha, heq⟩ := hmap
      simp only [Intent.leave.injEq, LeaveMessage.mk.injEq] at heq
      obtain ⟨-, h2, -⟩ := heq
      rw [h2, hl] at ha
      cases ha
    · simp at hcond
  · intro n t hn hmem
    simp only [mergeIntents, List.mem_append, List.mem_filterMap] at hmem
    rcases hmem with ⟨node, hnode, hmap⟩ | ⟨q, hq, hcond⟩
    · rw [Option.map_eq_some'] at hmap
      obtain ⟨a, -, heq⟩ := hmap
      cases heq
    · simp at hcond
      obtain ⟨hnot, -, h2⟩ := hcond
      rw [h2] at hnot
      exact hnot hn
  · intro c e q m ev
    rfl

/-- Concrete instance of `mergeIntents_left_members_first`: node 1 is a left
member with status ltime 4, so its synthetic Leave is produced. -/
theorem mergeIntents_left_members_first_inst :
    Intent.leave ⟨4, 1, false⟩ ∈ mergeIntents ⟨5, [(1, 4), (2, 7)], [1], 0, [], 0⟩ :=
  (mergeIntents_left_members_first ⟨5, [(1, 4), (2, 7)], [1], 0, [], 0⟩).2.1 1 4
    (by decide) (by decide)

/-- Claim C6: `notify_message` drops bad gossip input without any effect: an
empty byte string, a first byte that is not a known message tag, and a body
that fails to decode (by the message decoder and, for Relay, the node
decoder) all leave the state unchanged, queue nothing for rebroadcast and
send nothing. -/
theorem notifyMessage_bad_input_noop {St L J U Q R : Type}
    (env : DispatchEnv St L J U Q R) (st : St) :
    notifyMessage env st [] = ⟨st, none, none⟩ ∧
    (∀ b rest, byteToMessageType b = none →
        notifyMessage env st (b :: rest) = ⟨st, none, none⟩) ∧
    (∀ b rest, env.decodeMsg rest = none → env.decodeNode rest = none →
        notifyMessage env st (b :: rest) = ⟨st, none, none⟩) := by
  refine ⟨rfl, ?_, ?_⟩
  · intro b rest h
    simp [notifyMessage, h]
  · intro b rest hm hn
    simp only [notifyMessage]
    cases hty : byteToMessageType b with
    | none => rfl
    | some ty => cases ty <;> simp [hm, hn]

/-- Environment whose decoders always fail, for the instances below. -/
def envNone : DispatchEnv Nat Nat Nat Nat Nat Nat :=
  ⟨fun _ => none, fun _ => none,
   fun st _ => (st, true), fun st _ => (st, true), fun st _ => (st, true),
   fun st _ => (st, true), fun st _ => st⟩

/-- Concrete instance of `notifyMessage_bad_input_noop`: empty input, the
unknown tag byte 99, and a Leave message whose body fails to decode. -/
theorem notifyMessage_bad_input_noop_inst :
    notifyMessage envNone 0 [] = ⟨0, none, none⟩ ∧
    notifyMessage envNone 0 [99] = ⟨0, none, none⟩ ∧
    notifyMessage envNone 0 [0, 5] = ⟨0, none, none⟩ :=
  ⟨(notifyMessage_bad_input_noop envNone 0).1,
   (notifyMessage_bad_input_noop envNone 0).2.1 99 [] (by decide),
   (notifyMessage_bad_input_noop envNone 0).2.2 0 [5] rfl rfl⟩

/-- Claim C7: on a Relay message (tag byte 7) whose destination header
decodes, `notify_message` advances past exactly the tag byte plus the bytes
the header consumed, hands the remaining inner bytes unchanged to the
transport's `send` for the decoded destination's address, and queues nothing
for rebroadcast. -/
theorem notifyMessage_relay_forwards {St L J U Q R : Type}
    (env : DispatchEnv St L J U Q R) (st : St) (rest : List Nat)
    (consumed : Nat) (n : Node)
    (h : env.decodeNode rest = some (consumed, n)) :
    notifyMessage env st (7 :: rest) =
      ⟨st, none, some (n.addr, (7 :: rest).drop (consumed + 1))⟩ := by
  simp [notifyMessage, byteToMessageType, h]

/-- Environment whose node decoder consumes one byte and yields the node with
id 3 and address 9, for the instance below. -/
def envRelay : DispatchEnv Nat Nat Nat Nat Nat Nat :=
  ⟨fun _ => none, fun _ => some (1, ⟨3, 9⟩),
   fun st _ => (st, true), fun st _ => (st, true), fun st _ => (st, true),
   fun st _ => (st, true), fun st _ => st⟩

/-- Concrete instance of `notifyMessage_relay_forwards`: of `[7, 50, 60]` the
tag byte and the one consumed header byte are stripped and `[60]` is sent to
address 9. -/
theorem notifyMessage_relay_forwards_inst :
    notifyMessage envRelay 0 [7, 50, 60] = ⟨0, none, some (9, [60])⟩ :=
  notifyMessage_relay_forwards envRelay 0 [50, 60] 1 ⟨3, 9⟩ rfl

/-- The varint decoder inverts the encoder, also reporting the encoded
length as the number of bytes consumed. -/
theorem decode_encode_varint (n : Nat) :
    decode_varint (encode_varint n) = some ((encode_varint n).length, n) := by
  induction n using Nat.strong_induction_on with
  | _ n ih =>
    rw [encode_varint]
    by_cases h : n < 128
    · simp [h, decode_varint]
    · have hdiv : n / 128 < n := Nat.div_lt_self (by omega) (by omega)
      have hrec := ih (n / 128) hdiv
      have hbig : ¬ n % 128 + 128 < 128 := by omega
      rw [dif_neg h]
      rw [decode_varint, if_neg hbig, hrec]
      simp only [List.length_cons, Option.some_inj, Prod.mk.injEq]
      exact ⟨trivial, by omega⟩

/-- Claim C8: the wire tag bytes round-trip.  Converting any `MessageType` to
its byte and back yields the same value; the ten variants carry the tag bytes
0-7, 253 and 254; every other byte is rejected; and the varint encoding of a
Lamport time decodes back to the same value. -/
theorem message_tags_and_varint_roundtrip :
    (∀ m : MessageType, byteToMessageType (messageTypeToByte m) = some m) ∧
    ([MessageType.leave, .join, .pushPull, .userEvent, .query, .queryResponse,
        .conflictResponse, .relay, .keyRequest, .keyResponse].map messageTypeToByte
      = [0, 1, 2, 3, 4, 5, 6, 7, 253, 254]) ∧
    (∀ b : Nat, byteToMessageType b = none ↔
        ¬ b ∈ ([0, 1, 2, 3, 4, 5, 6, 7, 253, 254] : List Nat)) ∧
    (∀ n : Nat, decode_varint (encode_varint n) =
        some ((encode_varint n).length, n)) := by
  refine ⟨?_, rfl, ?_, decode_encode_varint⟩
  · intro m
    cases m <;> rfl
  · intro b
    unfold byteToMessageType
    split_ifs <;> simp_all

/-- Concrete instance of `message_tags_and_varint_roundtrip`: the Query tag
round-trips, byte 9 is rejected, and the Lamport time 300 encodes to two
varint bytes that decode back to 300. -/
theorem message_tags_and_varint_roundtrip_inst :
    byteToMessageType (messageTypeToByte MessageType.query) =
        some MessageType.query ∧
    byteToMessageType 9 = none ∧
    decode_varint (encode_varint 300) = some (2, 300) :=
  ⟨message_tags_and_varint_roundtrip.1 MessageType.query,
   (message_tags_and_varint_roundtrip.2.2.1 9).mpr (by decide),
   by
     have h := message_tags_and_varint_roundtrip.2.2.2 300
     have hl : (encode_varint 300).length = 2 := by
       rw [encode_varint]
       norm_num
       rw [encode_varint]
       norm_num
     rw [hl] at h
     exact h⟩

end Ruserf
